import Mathlib

/-!
A verification development for the PNGMe chunk codec.

The definitions below are a shallow embedding of the Rust sources:
bytes are modelled as `Nat` (with `< 256` hypotheses where byte-ness
matters), byte slices as `List Nat`, `u32` values as `Nat` (reduced
mod `2^32` exactly where the Rust code casts), and fallible operations
as `Except`.  The CRC-32 used for PNG chunks (`CRC_32_ISO_HDLC` of the
`crc` crate) is embedded as the standard reflected bitwise algorithm:
polynomial `0xEDB88320` (the reflection of `0x04C11DB7`), initial value
`0xFFFFFFFF`, final xor `0xFFFFFFFF`.
-/

/-! ## CRC-32 (ISO-HDLC), bitwise reflected form -/

/-- The reflected CRC-32 polynomial used by PNG (reflection of `0x04C11DB7`). -/
def crcPoly : Nat := 0xEDB88320

/-- Initial CRC register value of CRC-32/ISO-HDLC. -/
def crcInit : Nat := 0xFFFFFFFF

/-- Final xor value of CRC-32/ISO-HDLC. -/
def crcXorOut : Nat := 0xFFFFFFFF

/-- One bit-step of the reflected CRC-32: shift right, conditionally xor
the polynomial depending on the bit shifted out. -/
def crcStep1 (s : Nat) : Nat :=
  if s % 2 = 1 then (s / 2) ^^^ crcPoly else s / 2

/-- Eight bit-steps: processes one full byte already xor-ed into the register. -/
def crcStep8 (s : Nat) : Nat :=
  crcStep1 (crcStep1 (crcStep1 (crcStep1 (crcStep1 (crcStep1 (crcStep1 (crcStep1 s)))))))

/-- Update the CRC register with one message byte. -/
def crcUpdateByte (s b : Nat) : Nat := crcStep8 (s ^^^ b)

/-- Run the CRC register over a whole message, starting from state `s`. -/
def crcRaw (s : Nat) (m : List Nat) : Nat := m.foldl crcUpdateByte s

/-- CRC-32/ISO-HDLC of a byte sequence (what `CRC.digest`/`finalize` of the
`crc` crate computes for `CRC_32_ISO_HDLC`). -/
def crc32 (m : List Nat) : Nat := crcRaw crcInit m ^^^ crcXorOut

/-! ## ChunkType (src/chunk_type.rs) -/

/-- `u8::is_ascii_alphabetic`: `A`-`Z` or `a`-`z`. -/
def isAsciiAlphabetic (b : Nat) : Bool :=
  (0x41 ≤ b && b ≤ 0x5A) || (0x61 ≤ b && b ≤ 0x7A)

/-- The 4-byte PNG chunk type code (`struct ChunkType { bytes: [u8; 4] }`). -/
structure ChunkType where
  b0 : Nat
  b1 : Nat
  b2 : Nat
  b3 : Nat
deriving DecidableEq, Repr

/-- Errors of chunk-type construction (`enum ChunkTypeError`). -/
inductive ChunkTypeError where
  | invalidByte (byte : Nat) (index : Nat)
  | invalidLength (len : Nat)
deriving DecidableEq, Repr

/-- `ChunkType::bytes`: the raw 4 bytes. -/
def ChunkType.bytes (t : ChunkType) : List Nat := [t.b0, t.b1, t.b2, t.b3]

/-- `PROPERTY_BIT_MASK` of `ChunkType::is_bit_set`: bit 5, value `0x20`. -/
def propertyBitMask : Nat := 0x20

/-- `ChunkType::is_critical`: `!is_bit_set(0)`.  The private helper
`is_bit_set(index)` (`bytes[index] & 0x20 != 0`) is inlined at each of
its four call sites with the constant index it is called with. -/
def ChunkType.isCritical (t : ChunkType) : Bool :=
  !(t.b0 &&& propertyBitMask != 0)

/-- `ChunkType::is_public`: `!is_bit_set(1)`. -/
def ChunkType.isPublic (t : ChunkType) : Bool :=
  !(t.b1 &&& propertyBitMask != 0)

/-- `ChunkType::is_reserved_bit_valid`: `!is_bit_set(2)`. -/
def ChunkType.isReservedBitValid (t : ChunkType) : Bool :=
  !(t.b2 &&& propertyBitMask != 0)

/-- `ChunkType::is_safe_to_copy`: `is_bit_set(3)`. -/
def ChunkType.isSafeToCopy (t : ChunkType) : Bool :=
  t.b3 &&& propertyBitMask != 0

/-- `ChunkType::is_valid`: all bytes ASCII alphabetic and the reserved bit valid. -/
def ChunkType.isValid (t : ChunkType) : Bool :=
  t.bytes.all (fun b => isAsciiAlphabetic b) && t.isReservedBitValid

/-- `TryFrom<[u8; 4]> for ChunkType`: the source loop over the four bytes
with `enumerate`, returning `InvalidByte` at the first non-alphabetic byte,
unrolled over the four elements. -/
def ChunkType.tryFrom (t0 t1 t2 t3 : Nat) : Except ChunkTypeError ChunkType :=
  if !isAsciiAlphabetic t0 then .error (.invalidByte t0 0)
  else if !isAsciiAlphabetic t1 then .error (.invalidByte t1 1)
  else if !isAsciiAlphabetic t2 then .error (.invalidByte t2 2)
  else if !isAsciiAlphabetic t3 then .error (.invalidByte t3 3)
  else .ok ⟨t0, t1, t2, t3⟩

/-! ## Chunk (src/chunk.rs) -/

/-- Errors of chunk parsing and construction (`enum ChunkError`).
`InvalidUtf8` exists in the source for `data_as_str` and is kept for
completeness; no claim exercises it. -/
inductive ChunkError where
  | notEnoughBytes (position required actual : Nat)
  | tooLarge (size : Nat)
  | invalidChunkType (e : ChunkTypeError)
  | crcMismatch (expected actual : Nat)
  | invalidUtf8
deriving DecidableEq, Repr

/-- A PNG chunk (`struct Chunk { chunk_type, data, crc }`). -/
structure Chunk where
  chunkType : ChunkType
  data : List Nat
  crc : Nat
deriving DecidableEq, Repr

/-- `Chunk::MAX_DATA_SIZE = (1 << 31) - 1`. -/
def Chunk.maxDataSize : Nat := (1 <<< 31) - 1

/-- `Chunk::LENGTH_SIZE = 4`. -/
def Chunk.lengthSize : Nat := 4

/-- `Chunk::TYPE_SIZE = 4`. -/
def Chunk.typeSize : Nat := 4

/-- `Chunk::CRC_SIZE = 4`. -/
def Chunk.crcSize : Nat := 4

/-- `Chunk::calculate_crc`: CRC-32 over the chunk-type bytes followed by
the data bytes. -/
def Chunk.calculateCrc (t : ChunkType) (d : List Nat) : Nat :=
  crc32 (t.bytes ++ d)

/-- `Chunk::new`: stores the type and data and derives the CRC. -/
def Chunk.new (t : ChunkType) (d : List Nat) : Chunk :=
  ⟨t, d, Chunk.calculateCrc t d⟩

/-- `Chunk::length`: `data.len() as u32` (the `usize → u32` cast reduces
mod `2^32`). -/
def Chunk.length (c : Chunk) : Nat := c.data.length % 2 ^ 32

/-- `u32::to_be_bytes` applied to a register value: the four big-endian
bytes of `x` as a `u32` (higher bits of a larger `Nat` are discarded,
as the cast to `u32` would). -/
def u32ToBeBytes (x : Nat) : List Nat :=
  [x / 2 ^ 24 % 256, x / 2 ^ 16 % 256, x / 2 ^ 8 % 256, x % 256]

/-- `u32::from_be_bytes` on four bytes. -/
def u32FromBeBytes (a b c d : Nat) : Nat :=
  a * 2 ^ 24 + b * 2 ^ 16 + c * 2 ^ 8 + d

/-- `Chunk::as_bytes`: length (BE), type bytes, data, CRC (BE). -/
def Chunk.asBytes (c : Chunk) : List Nat :=
  u32ToBeBytes c.length ++ c.chunkType.bytes ++ c.data ++ u32ToBeBytes c.crc

/-- Rust's `slice.get(start..start+4).and_then(|s| s.try_into().ok())`:
four consecutive bytes starting at `start`, when they exist. -/
def listGet4 (l : List Nat) (start : Nat) : Option (Nat × Nat × Nat × Nat) :=
  match l.drop start with
  | a :: b :: c :: d :: _ => some (a, b, c, d)
  | _ => none

/-- Rust's `slice.get(start..start+len)`: defined exactly when the end of
the range is within bounds. -/
def sliceGet (l : List Nat) (start len : Nat) : Option (List Nat) :=
  if start + len ≤ l.length then some ((l.drop start).take len) else none

/-- `TryFrom<&[u8]> for Chunk`: parse length, check the size limit, parse
and validate the type, slice the data, parse the stored CRC, recompute and
compare.  Each `ok_or_else` error branch carries the same
`position`/`required`/`actual` values as the source (`actual` uses `Nat`
subtraction, as `usize` subtraction would; claim C10 is about these). -/
def Chunk.tryFrom (bytes : List Nat) : Except ChunkError Chunk :=
  match listGet4 bytes 0 with
  | none => .error (.notEnoughBytes 0 Chunk.lengthSize (bytes.length - 0))
  | some (l0, l1, l2, l3) =>
    let dataLength := u32FromBeBytes l0 l1 l2 l3
    if dataLength > Chunk.maxDataSize then .error (.tooLarge dataLength)
    else
      match listGet4 bytes Chunk.lengthSize with
      | none =>
        .error (.notEnoughBytes Chunk.lengthSize Chunk.typeSize
          (bytes.length - Chunk.lengthSize))
      | some (t0, t1, t2, t3) =>
        match ChunkType.tryFrom t0 t1 t2 t3 with
        | .error e => .error (.invalidChunkType e)
        | .ok chunkType =>
          let dataStart := Chunk.lengthSize + Chunk.typeSize
          match sliceGet bytes dataStart dataLength with
          | none =>
            .error (.notEnoughBytes dataStart dataLength
              (bytes.length - dataStart))
          | some dataBytes =>
            let crcStart := dataStart + dataLength
            match listGet4 bytes crcStart with
            | none =>
              .error (.notEnoughBytes crcStart Chunk.crcSize
                (bytes.length - crcStart))
            | some (c0, c1, c2, c3) =>
              let crc := u32FromBeBytes c0 c1 c2 c3
              let expectedCrc := Chunk.calculateCrc chunkType dataBytes
              if crc ≠ expectedCrc then
                .error (.crcMismatch expectedCrc crc)
              else .ok ⟨chunkType, dataBytes, crc⟩

/-! ## Png container -/

/-- Error of container lookup/removal. -/
inductive PngError where
  | chunkNotFound
deriving DecidableEq, Repr

/-- Modelled from the spec: the `png` module (`PngContainer`) is declared
in `lib.rs` (`pub mod png;`) and used by `commands.rs`, but its source
file is not in the repository.  Per spec section 4.3 the container owns an
ordered sequence of chunks (the fixed signature plays no role in the
append/find/remove claims). -/
structure Png where
  chunks : List Chunk
deriving DecidableEq, Repr

/-- Modelled from the spec: the find/remove matching rule — the chunk
type's display string equals the requested string exactly (case-sensitive,
4 characters).  The display string of a `ChunkType` is its four ASCII
bytes, so string equality is equality of the byte sequences; the requested
string is modelled as its byte sequence. -/
def chunkTypeMatches (s : List Nat) (c : Chunk) : Bool :=
  c.chunkType.bytes == s

/-- Modelled from the spec: `append_chunk` pushes to the end of the
ordered sequence, with no validation. -/
def Png.appendChunk (p : Png) (c : Chunk) : Png :=
  ⟨p.chunks ++ [c]⟩

/-- Modelled from the spec: `find_chunk_by_type` is a linear scan
returning the first chunk in stored order that matches. -/
def Png.chunkByType (p : Png) (s : List Nat) : Option Chunk :=
  p.chunks.find? (chunkTypeMatches s)

/-- Modelled from the spec: `remove_first_chunk_by_type` removes the first
chunk matching by the same rule as find, and fails explicitly with a
not-found error when no chunk matches (no silent no-op). -/
def Png.removeFirstChunk (p : Png) (s : List Nat) : Except PngError Png :=
  match p.chunks.find? (chunkTypeMatches s) with
  | some _ => .ok ⟨p.chunks.eraseP (chunkTypeMatches s)⟩
  | none => .error .chunkNotFound

/-! ## Concrete fixtures from the repository's tests -/

/-- The chunk type `RuSt` used throughout the source's tests. -/
def rustChunkType : ChunkType := ⟨0x52, 0x75, 0x53, 0x74⟩

/-- The ASCII bytes of the test message
`This is where your secret message will be!` (42 characters). -/
def secretMessage : List Nat :=
  [84, 104, 105, 115, 32, 105, 115, 32, 119, 104, 101, 114, 101, 32, 121,
   111, 117, 114, 32, 115, 101, 99, 114, 101, 116, 32, 109, 101, 115, 115,
   97, 103, 101, 32, 119, 105, 108, 108, 32, 98, 101, 33]

/-! ## Arithmetic helper lemmas for `u32` big-endian encoding -/

lemma u32ToBeBytes_mod (n : Nat) : u32ToBeBytes (n % 2 ^ 32) = u32ToBeBytes n := by
  simp only [u32ToBeBytes, List.cons.injEq, and_true]
  refine ⟨?_, ?_, ?_, ?_⟩ <;> omega

lemma u32FromBeBytes_toBe (n : Nat) (h : n < 2 ^ 32) :
    u32FromBeBytes (n / 2 ^ 24 % 256) (n / 2 ^ 16 % 256) (n / 2 ^ 8 % 256) (n % 256) = n := by
  simp only [u32FromBeBytes]; omega

lemma u32FromBeBytes_lt (a b c d : Nat) (ha : a < 256) (hb : b < 256)
    (hc : c < 256) (hd : d < 256) : u32FromBeBytes a b c d < 2 ^ 32 := by
  simp only [u32FromBeBytes]; omega

lemma u32ToBeBytes_of_fromBe (a b c d : Nat) (ha : a < 256) (hb : b < 256)
    (hc : c < 256) (hd : d < 256) :
    u32ToBeBytes (u32FromBeBytes a b c d) = [a, b, c, d] := by
  simp only [u32ToBeBytes, u32FromBeBytes, List.cons.injEq, and_true]
  refine ⟨?_, ?_, ?_, ?_⟩ <;> omega

lemma u32ToBeBytes_mem_lt (n : Nat) : ∀ x ∈ u32ToBeBytes n, x < 256 := by
  simp only [u32ToBeBytes, List.mem_cons, List.not_mem_nil, or_false]
  rintro x (rfl | rfl | rfl | rfl) <;> omega

/-! ## C6: serialization layout -/

/-- C6: `Chunk::as_bytes` is exactly the 4-byte big-endian length, the 4
type bytes, the data, and the 4-byte big-endian CRC, for a total of
`12 + data.len()` bytes. -/
theorem chunk_asBytes_layout (c : Chunk) :
    c.asBytes = u32ToBeBytes c.data.length ++ c.chunkType.bytes ++ c.data ++
        u32ToBeBytes c.crc ∧
    c.asBytes.length = 12 + c.data.length := by
  constructor
  · simp only [Chunk.asBytes, Chunk.length, u32ToBeBytes_mod]
  · simp only [Chunk.asBytes, List.length_append, u32ToBeBytes, ChunkType.bytes,
      List.length_cons, List.length_nil]
    omega

/-! ## C7: concrete test scenario -/

set_option maxRecDepth 40000 in
/-- C7 (amended): the chunk built from type `RuSt` and the 42-byte test
message has CRC `2882656334` and length `42`; the message itself is 42
bytes (not 44), so message length equals declared length at 42. -/
theorem concrete_scenario :
    (Chunk.new rustChunkType secretMessage).crc = 2882656334 ∧
    (Chunk.new rustChunkType secretMessage).length = 42 ∧
    secretMessage.length = 42 := by
  refine ⟨by decide, by decide, by decide⟩

/-- C7 counterexample: the spec's assertion that the message is 44 bytes is
false — it is 42 bytes, and the resulting chunk length is 42, not 44. -/
theorem concrete_scenario_not_44 :
    secretMessage.length ≠ 44 ∧ (Chunk.new rustChunkType secretMessage).length ≠ 44 := by
  refine ⟨by decide, by decide⟩

/-! ## C8: chunk-type bit predicates -/

lemma and_mask_testBit (b : Nat) : (b &&& propertyBitMask != 0) = b.testBit 5 := by
  have h : b &&& 2 ^ 5 = (b.testBit 5).toNat * 2 ^ 5 := Nat.and_two_pow b 5
  have hmask : propertyBitMask = 2 ^ 5 := by norm_num [propertyBitMask]
  rw [hmask, h]
  cases b.testBit 5 <;> simp

/-- C8: each property predicate is exactly a test of bit 5 (mask `0x20`)
of the corresponding type byte — clear means critical / public /
reserved-valid, set means safe-to-copy — and `is_valid` holds exactly when
all four bytes are ASCII alphabetic and the reserved bit is clear.  (All
five predicates are pure functions of the four bytes by construction.) -/
theorem chunkType_bit_semantics (t : ChunkType) :
    (t.isCritical = true ↔ t.b0.testBit 5 = false) ∧
    (t.isPublic = true ↔ t.b1.testBit 5 = false) ∧
    (t.isReservedBitValid = true ↔ t.b2.testBit 5 = false) ∧
    (t.isSafeToCopy = true ↔ t.b3.testBit 5 = true) ∧
    (t.isValid = true ↔
      ((∀ x ∈ t.bytes, isAsciiAlphabetic x = true) ∧ t.b2.testBit 5 = false)) := by
  refine ⟨?_, ?_, ?_, ?_, ?_⟩
  · rw [ChunkType.isCritical, and_mask_testBit]; cases t.b0.testBit 5 <;> simp
  · rw [ChunkType.isPublic, and_mask_testBit]; cases t.b1.testBit 5 <;> simp
  · rw [ChunkType.isReservedBitValid, and_mask_testBit]; cases t.b2.testBit 5 <;> simp
  · rw [ChunkType.isSafeToCopy, and_mask_testBit]
  · rw [ChunkType.isValid, Bool.and_eq_true, List.all_eq_true,
      ChunkType.isReservedBitValid, and_mask_testBit]
    cases t.b2.testBit 5 <;> simp

/-! ## C4: chunk-type construction -/

/-- C4: `ChunkType::try_from` on four bytes succeeds with the same bytes
when all are ASCII alphabetic, and otherwise fails with `InvalidByte`
carrying the value and index of the lowest-index non-alphabetic byte. -/
theorem chunkType_tryFrom_spec (t0 t1 t2 t3 : Nat) :
    ((∀ x ∈ [t0, t1, t2, t3], isAsciiAlphabetic x = true) →
      ∃ t, ChunkType.tryFrom t0 t1 t2 t3 = .ok t ∧ t.bytes = [t0, t1, t2, t3]) ∧
    (∀ k, k < 4 → isAsciiAlphabetic ([t0, t1, t2, t3].getD k 0) = false →
      (∀ m, m < k → isAsciiAlphabetic ([t0, t1, t2, t3].getD m 0) = true) →
      ChunkType.tryFrom t0 t1 t2 t3 =
        .error (.invalidByte ([t0, t1, t2, t3].getD k 0) k)) := by
  constructor
  · intro h
    have h0 := h t0 (by simp)
    have h1 := h t1 (by simp)
    have h2 := h t2 (by simp)
    have h3 := h t3 (by simp)
    exact ⟨⟨t0, t1, t2, t3⟩, by simp [ChunkType.tryFrom, h0, h1, h2, h3], rfl⟩
  · intro k hk hbad hgood
    interval_cases k
    · have hb : isAsciiAlphabetic t0 = false := by simpa using hbad
      simp [ChunkType.tryFrom, hb]
    · have hb : isAsciiAlphabetic t1 = false := by simpa using hbad
      have h0 : isAsciiAlphabetic t0 = true := by simpa using hgood 0 (by omega)
      simp [ChunkType.tryFrom, hb, h0]
    · have hb : isAsciiAlphabetic t2 = false := by simpa using hbad
      have h0 : isAsciiAlphabetic t0 = true := by simpa using hgood 0 (by omega)
      have h1 : isAsciiAlphabetic t1 = true := by simpa using hgood 1 (by omega)
      simp [ChunkType.tryFrom, hb, h0, h1]
    · have hb : isAsciiAlphabetic t3 = false := by simpa using hbad
      have h0 : isAsciiAlphabetic t0 = true := by simpa using hgood 0 (by omega)
      have h1 : isAsciiAlphabetic t1 = true := by simpa using hgood 1 (by omega)
      have h2 : isAsciiAlphabetic t2 = true := by simpa using hgood 2 (by omega)
      simp [ChunkType.tryFrom, hb, h0, h1, h2]

/-- C4 witness: concrete success (`RuSt`) and concrete first-offending-index
failure (`R1St`, offending byte `0x31` at index 1). -/
theorem chunkType_tryFrom_spec_witness :
    (∃ t, ChunkType.tryFrom 82 117 83 116 = .ok t ∧ t.bytes = [82, 117, 83, 116]) ∧
    ChunkType.tryFrom 82 49 83 116 = .error (.invalidByte 49 1) := by
  refine ⟨(chunkType_tryFrom_spec 82 117 83 116).1 (by decide),
    (chunkType_tryFrom_spec 82 49 83 116).2 1 (by decide) (by decide) ?_⟩
  intro m hm
  interval_cases m
  decide

/-! ## CRC-32 algebra: bounds, GF(2)-linearity, injectivity, sensitivity -/

lemma xor_mod_two (x y : Nat) : (x ^^^ y) % 2 = (x % 2) ^^^ (y % 2) := by
  rw [← Nat.and_one_is_mod, ← Nat.and_one_is_mod, ← Nat.and_one_is_mod,
    Nat.and_xor_distrib_right]

lemma xor_div_two (x y : Nat) : (x ^^^ y) / 2 = (x / 2) ^^^ (y / 2) := by
  rw [← Nat.shiftRight_one, ← Nat.shiftRight_one, ← Nat.shiftRight_one]
  refine Nat.eq_of_testBit_eq fun i => ?_
  simp [Nat.testBit_shiftRight, Nat.testBit_xor]

lemma xor_pair_cancel (a b p : Nat) : (a ^^^ p) ^^^ (b ^^^ p) = a ^^^ b := by
  refine Nat.eq_of_testBit_eq fun i => ?_
  simp only [Nat.testBit_xor]
  cases a.testBit i <;> cases b.testBit i <;> cases p.testBit i <;> rfl

lemma xor_eq_zero_of_xor_left {a d : Nat} (h : a ^^^ d = a) : d = 0 := by
  have h2 : a ^^^ (a ^^^ d) = a ^^^ a := congrArg (a ^^^ ·) h
  rwa [← Nat.xor_assoc, Nat.xor_self, Nat.zero_xor] at h2

lemma crcPoly_lt : crcPoly < 2 ^ 32 := by norm_num [crcPoly]

lemma crcStep1_lt {s : Nat} (h : s < 2 ^ 32) : crcStep1 s < 2 ^ 32 := by
  unfold crcStep1
  split
  · exact Nat.xor_lt_two_pow (by omega) crcPoly_lt
  · omega

lemma crcStep1_linear (x y : Nat) :
    crcStep1 (x ^^^ y) = crcStep1 x ^^^ crcStep1 y := by
  unfold crcStep1
  rcases Nat.mod_two_eq_zero_or_one x with hx | hx <;>
    rcases Nat.mod_two_eq_zero_or_one y with hy | hy
  · have hxy : (x ^^^ y) % 2 = 0 := by rw [xor_mod_two, hx, hy]; rfl
    rw [if_neg (show ¬(x ^^^ y) % 2 = 1 by omega),
      if_neg (show ¬x % 2 = 1 by omega), if_neg (show ¬y % 2 = 1 by omega),
      xor_div_two]
  · have hxy : (x ^^^ y) % 2 = 1 := by rw [xor_mod_two, hx, hy]; rfl
    rw [if_pos hxy, if_neg (show ¬x % 2 = 1 by omega), if_pos hy, xor_div_two]
    refine Nat.eq_of_testBit_eq fun i => ?_
    simp only [Nat.testBit_xor]
    cases (x / 2).testBit i <;> cases (y / 2).testBit i <;>
      cases crcPoly.testBit i <;> rfl
  · have hxy : (x ^^^ y) % 2 = 1 := by rw [xor_mod_two, hx, hy]; rfl
    rw [if_pos hxy, if_pos hx, if_neg (show ¬y % 2 = 1 by omega), xor_div_two]
    refine Nat.eq_of_testBit_eq fun i => ?_
    simp only [Nat.testBit_xor]
    cases (x / 2).testBit i <;> cases (y / 2).testBit i <;>
      cases crcPoly.testBit i <;> rfl
  · have hxy : (x ^^^ y) % 2 = 0 := by rw [xor_mod_two, hx, hy]; rfl
    rw [if_neg (show ¬(x ^^^ y) % 2 = 1 by omega), if_pos hx, if_pos hy,
      xor_div_two, xor_pair_cancel]

lemma crcStep1_inj {s t : Nat} (hs : s < 2 ^ 32) (ht : t < 2 ^ 32)
    (h : crcStep1 s = crcStep1 t) : s = t := by
  have hpoly : crcPoly.testBit 31 = true := by decide
  unfold crcStep1 at h
  rcases Nat.mod_two_eq_zero_or_one s with hs2 | hs2 <;>
    rcases Nat.mod_two_eq_zero_or_one t with ht2 | ht2
  · rw [if_neg (show ¬s % 2 = 1 by omega), if_neg (show ¬t % 2 = 1 by omega)] at h
    omega
  · rw [if_neg (show ¬s % 2 = 1 by omega), if_pos (show t % 2 = 1 by omega)] at h
    have hb : (s / 2).testBit 31 = ((t / 2) ^^^ crcPoly).testBit 31 := by rw [h]
    rw [Nat.testBit_xor, hpoly, Nat.testBit_lt_two_pow (show s / 2 < 2 ^ 31 by omega),
      Nat.testBit_lt_two_pow (show t / 2 < 2 ^ 31 by omega)] at hb
    simp at hb
  · rw [if_pos (show s % 2 = 1 by omega), if_neg (show ¬t % 2 = 1 by omega)] at h
    have hb : ((s / 2) ^^^ crcPoly).testBit 31 = (t / 2).testBit 31 := by rw [h]
    rw [Nat.testBit_xor, hpoly, Nat.testBit_lt_two_pow (show s / 2 < 2 ^ 31 by omega),
      Nat.testBit_lt_two_pow (show t / 2 < 2 ^ 31 by omega)] at hb
    simp at hb
  · rw [if_pos (show s % 2 = 1 by omega), if_pos (show t % 2 = 1 by omega)] at h
    have h2 := congrArg (· ^^^ crcPoly) h
    simp only at h2
    rw [Nat.xor_cancel_right, Nat.xor_cancel_right] at h2
    omega

lemma crcStep8_lt {s : Nat} (h : s < 2 ^ 32) : crcStep8 s < 2 ^ 32 := by
  unfold crcStep8
  iterate 8 apply crcStep1_lt
  exact h

lemma crcStep8_linear (x y : Nat) :
    crcStep8 (x ^^^ y) = crcStep8 x ^^^ crcStep8 y := by
  simp only [crcStep8, crcStep1_linear]

lemma crcStep8_inj {s t : Nat} (hs : s < 2 ^ 32) (ht : t < 2 ^ 32)
    (h : crcStep8 s = crcStep8 t) : s = t := by
  unfold crcStep8 at h
  have hs1 := crcStep1_lt hs
  have hs2 := crcStep1_lt hs1
  have hs3 := crcStep1_lt hs2
  have hs4 := crcStep1_lt hs3
  have hs5 := crcStep1_lt hs4
  have hs6 := crcStep1_lt hs5
  have hs7 := crcStep1_lt hs6
  have ht1 := crcStep1_lt ht
  have ht2 := crcStep1_lt ht1
  have ht3 := crcStep1_lt ht2
  have ht4 := crcStep1_lt ht3
  have ht5 := crcStep1_lt ht4
  have ht6 := crcStep1_lt ht5
  have ht7 := crcStep1_lt ht6
  exact crcStep1_inj hs ht (crcStep1_inj hs1 ht1 (crcStep1_inj hs2 ht2
    (crcStep1_inj hs3 ht3 (crcStep1_inj hs4 ht4 (crcStep1_inj hs5 ht5
      (crcStep1_inj hs6 ht6 (crcStep1_inj hs7 ht7 h)))))))

lemma crcUpdateByte_lt {s b : Nat} (hs : s < 2 ^ 32) (hb : b < 2 ^ 32) :
    crcUpdateByte s b < 2 ^ 32 :=
  crcStep8_lt (Nat.xor_lt_two_pow hs hb)

lemma crcUpdateByte_inj {s t b : Nat} (hs : s < 2 ^ 32) (ht : t < 2 ^ 32)
    (hb : b < 2 ^ 32) (h : crcUpdateByte s b = crcUpdateByte t b) : s = t := by
  unfold crcUpdateByte at h
  have h2 := crcStep8_inj (Nat.xor_lt_two_pow hs hb) (Nat.xor_lt_two_pow ht hb) h
  have h3 : s ^^^ b ^^^ b = t ^^^ b ^^^ b := by rw [h2]
  rwa [Nat.xor_cancel_right, Nat.xor_cancel_right] at h3

lemma crcUpdateByte_flip (s b d : Nat) :
    crcUpdateByte s (b ^^^ d) = crcUpdateByte s b ^^^ crcStep8 d := by
  unfold crcUpdateByte
  rw [← crcStep8_linear, Nat.xor_assoc]

lemma crcRaw_lt : ∀ (m : List Nat), (∀ x ∈ m, x < 256) → ∀ {s : Nat},
    s < 2 ^ 32 → crcRaw s m < 2 ^ 32 := by
  intro m
  induction m with
  | nil => intro _ s hs; simpa [crcRaw] using hs
  | cons b rest ih =>
    intro hm s hs
    have hb : b < 256 := hm b (by simp)
    have h1 : crcUpdateByte s b < 2 ^ 32 := crcUpdateByte_lt hs (by omega)
    simpa [crcRaw, List.foldl_cons] using
      ih (fun x hx => hm x (by simp [hx])) h1

lemma crcRaw_inj : ∀ (m : List Nat), (∀ x ∈ m, x < 256) → ∀ {s t : Nat},
    s < 2 ^ 32 → t < 2 ^ 32 → crcRaw s m = crcRaw t m → s = t := by
  intro m
  induction m with
  | nil => intro _ s t _ _ h; simpa [crcRaw] using h
  | cons b rest ih =>
    intro hm s t hs ht h
    have hb : b < 256 := hm b (by simp)
    simp only [crcRaw, List.foldl_cons] at h
    have h2 := ih (fun x hx => hm x (by simp [hx]))
      (crcUpdateByte_lt hs (by omega)) (crcUpdateByte_lt ht (by omega)) h
    exact crcUpdateByte_inj hs ht (by omega) h2

set_option maxRecDepth 40000 in
lemma crcStep8_two_pow_ne_zero : ∀ j, j < 8 → crcStep8 (2 ^ j) ≠ 0 := by decide

lemma crcRaw_set_ne : ∀ (m : List Nat) (s i j : Nat), (∀ x ∈ m, x < 256) →
    s < 2 ^ 32 → i < m.length → j < 8 →
    crcRaw s (m.set i (m.getD i 0 ^^^ 2 ^ j)) ≠ crcRaw s m := by
  intro m
  induction m with
  | nil => intro s i j _ _ hi _; simp at hi
  | cons b rest ih =>
    intro s i j hm hs hi hj
    have hb : b < 256 := hm b (by simp)
    have hrest : ∀ x ∈ rest, x < 256 := fun x hx => hm x (by simp [hx])
    cases i with
    | zero =>
      simp only [List.set_cons_zero, List.getD_cons_zero, crcRaw, List.foldl_cons]
      rw [crcUpdateByte_flip]
      intro h
      have hd : crcStep8 (2 ^ j) ≠ 0 := crcStep8_two_pow_ne_zero j hj
      have hlt : crcUpdateByte s b < 2 ^ 32 := crcUpdateByte_lt hs (by omega)
      have hdlt : crcStep8 (2 ^ j) < 2 ^ 32 := by
        apply crcStep8_lt
        have : (2 : Nat) ^ j ≤ 2 ^ 7 := Nat.pow_le_pow_right (by omega) (by omega)
        omega
      have heq := crcRaw_inj rest hrest
        (Nat.xor_lt_two_pow hlt hdlt) hlt h
      exact hd (xor_eq_zero_of_xor_left heq)
    | succ k =>
      simp only [List.set_cons_succ, List.getD_cons_succ, crcRaw, List.foldl_cons]
      have hslt : crcUpdateByte s b < 2 ^ 32 := crcUpdateByte_lt hs (by omega)
      exact ih (crcUpdateByte s b) k j hrest hslt (by simpa using hi) hj

lemma crc32_lt (m : List Nat) (hm : ∀ x ∈ m, x < 256) : crc32 m < 2 ^ 32 := by
  unfold crc32
  exact Nat.xor_lt_two_pow (crcRaw_lt m hm (by norm_num [crcInit]))
    (by norm_num [crcXorOut])

lemma crc32_set_ne (m : List Nat) (i j : Nat) (hm : ∀ x ∈ m, x < 256)
    (hi : i < m.length) (hj : j < 8) :
    crc32 (m.set i (m.getD i 0 ^^^ 2 ^ j)) ≠ crc32 m := by
  unfold crc32
  intro h
  have h2 : crcRaw crcInit (m.set i (m.getD i 0 ^^^ 2 ^ j)) = crcRaw crcInit m := by
    have h3 := congrArg (· ^^^ crcXorOut) h
    simpa [Nat.xor_cancel_right] using h3
  exact crcRaw_set_ne m crcInit i j hm (by norm_num [crcInit]) hi hj h2

/-! ## Parse-step characterizations -/

lemma listGet4_eq_some {l : List Nat} {s a b c d : Nat}
    (h : listGet4 l s = some (a, b, c, d)) :
    l.drop s = a :: b :: c :: d :: l.drop (s + 4) ∧ s + 4 ≤ l.length := by
  unfold listGet4 at h
  split at h
  next a' b' c' d' tail heq =>
    obtain ⟨rfl, rfl, rfl, rfl⟩ : a' = a ∧ b' = b ∧ c' = c ∧ d' = d := by
      simpa using h
    have hlen : (l.drop s).length = 4 + tail.length := by rw [heq]; simp; omega
    rw [List.length_drop] at hlen
    have htail : l.drop (s + 4) = tail := by
      have h4 : (l.drop s).drop 4 = tail := by rw [heq]; rfl
      rwa [List.drop_drop] at h4
    exact ⟨by rw [heq, htail], by omega⟩
  next heq => exact absurd h (by simp)

lemma listGet4_eq_none {l : List Nat} {s : Nat} (h : listGet4 l s = none) :
    l.length < s + 4 := by
  rcases hd : l.drop s with _ | ⟨a, _ | ⟨b, _ | ⟨c, _ | ⟨d, t⟩⟩⟩⟩
  · have := congrArg List.length hd; simp [List.length_drop] at this; omega
  · have := congrArg List.length hd; simp [List.length_drop] at this; omega
  · have := congrArg List.length hd; simp [List.length_drop] at this; omega
  · have := congrArg List.length hd; simp [List.length_drop] at this; omega
  · unfold listGet4 at h
    rw [hd] at h
    simp at h

lemma sliceGet_eq_some {l : List Nat} {s n : Nat} {d : List Nat}
    (h : sliceGet l s n = some d) :
    s + n ≤ l.length ∧ d = (l.drop s).take n ∧ d.length = n := by
  unfold sliceGet at h
  split at h
  next hle =>
    obtain rfl : (l.drop s).take n = d := by simpa using h
    refine ⟨hle, rfl, ?_⟩
    rw [List.length_take, List.length_drop]
    omega
  next => exact absurd h (by simp)

lemma sliceGet_eq_none {l : List Nat} {s n : Nat} (h : sliceGet l s n = none) :
    l.length < s + n := by
  unfold sliceGet at h
  split at h
  next => exact absurd h (by simp)
  next hgt => omega

lemma chunkType_tryFrom_of_alpha {t0 t1 t2 t3 : Nat}
    (h0 : isAsciiAlphabetic t0 = true) (h1 : isAsciiAlphabetic t1 = true)
    (h2 : isAsciiAlphabetic t2 = true) (h3 : isAsciiAlphabetic t3 = true) :
    ChunkType.tryFrom t0 t1 t2 t3 = .ok ⟨t0, t1, t2, t3⟩ := by
  simp [ChunkType.tryFrom, h0, h1, h2, h3]

lemma chunkType_tryFrom_ok {t0 t1 t2 t3 : Nat} {ct : ChunkType}
    (h : ChunkType.tryFrom t0 t1 t2 t3 = .ok ct) :
    ct = ⟨t0, t1, t2, t3⟩ ∧ isAsciiAlphabetic t0 = true ∧
      isAsciiAlphabetic t1 = true ∧ isAsciiAlphabetic t2 = true ∧
      isAsciiAlphabetic t3 = true := by
  cases ha0 : isAsciiAlphabetic t0 with
  | false => simp [ChunkType.tryFrom, ha0] at h
  | true =>
    cases ha1 : isAsciiAlphabetic t1 with
    | false => simp [ChunkType.tryFrom, ha0, ha1] at h
    | true =>
      cases ha2 : isAsciiAlphabetic t2 with
      | false => simp [ChunkType.tryFrom, ha0, ha1, ha2] at h
      | true =>
        cases ha3 : isAsciiAlphabetic t3 with
        | false => simp [ChunkType.tryFrom, ha0, ha1, ha2, ha3] at h
        | true =>
          rw [chunkType_tryFrom_of_alpha ha0 ha1 ha2 ha3] at h
          exact ⟨(Except.ok.inj h).symm, rfl, rfl, rfl, rfl⟩

lemma isAsciiAlphabetic_lt {b : Nat} (h : isAsciiAlphabetic b = true) : b < 256 := by
  simp only [isAsciiAlphabetic, Bool.or_eq_true, Bool.and_eq_true,
    decide_eq_true_eq] at h
  omega

lemma tryFrom_ok_inv {bytes : List Nat} {c : Chunk}
    (h : Chunk.tryFrom bytes = .ok c) :
    ∃ l0 l1 l2 l3 c0 c1 c2 c3,
      bytes = l0 :: l1 :: l2 :: l3 :: (c.chunkType.bytes ++ c.data ++
        (c0 :: c1 :: c2 :: c3 :: bytes.drop (12 + c.data.length))) ∧
      u32FromBeBytes l0 l1 l2 l3 = c.data.length ∧
      u32FromBeBytes c0 c1 c2 c3 = c.crc ∧
      c.data.length ≤ Chunk.maxDataSize ∧
      isAsciiAlphabetic c.chunkType.b0 = true ∧
      isAsciiAlphabetic c.chunkType.b1 = true ∧
      isAsciiAlphabetic c.chunkType.b2 = true ∧
      isAsciiAlphabetic c.chunkType.b3 = true ∧
      c.crc = Chunk.calculateCrc c.chunkType c.data := by
  unfold Chunk.tryFrom at h
  cases hg0 : listGet4 bytes 0 with
  | none => simp [hg0] at h
  | some q0 =>
    obtain ⟨l0, l1, l2, l3⟩ := q0
    simp only [hg0] at h
    by_cases hmax : u32FromBeBytes l0 l1 l2 l3 > Chunk.maxDataSize
    · rw [if_pos hmax] at h
      exact absurd h (by simp)
    · rw [if_neg hmax] at h
      cases hg4 : listGet4 bytes Chunk.lengthSize with
      | none => simp [hg4] at h
      | some q4 =>
        obtain ⟨t0, t1, t2, t3⟩ := q4
        simp only [hg4] at h
        cases hct : ChunkType.tryFrom t0 t1 t2 t3 with
        | error e => simp [hct] at h
        | ok ct =>
          simp only [hct] at h
          cases hsl : sliceGet bytes (Chunk.lengthSize + Chunk.typeSize)
              (u32FromBeBytes l0 l1 l2 l3) with
          | none => simp [hsl] at h
          | some dataBytes =>
            simp only [hsl] at h
            cases hgc : listGet4 bytes
                (Chunk.lengthSize + Chunk.typeSize + u32FromBeBytes l0 l1 l2 l3) with
            | none => simp [hgc] at h
            | some qc =>
              obtain ⟨c0, c1, c2, c3⟩ := qc
              simp only [hgc] at h
              by_cases hcrc : u32FromBeBytes c0 c1 c2 c3 ≠
                  Chunk.calculateCrc ct dataBytes
              · rw [if_pos hcrc] at h
                exact absurd h (by simp)
              · rw [if_neg hcrc] at h
                push_neg at hcrc
                have hc : c = ⟨ct, dataBytes, u32FromBeBytes c0 c1 c2 c3⟩ :=
                  (Except.ok.inj h).symm
                obtain ⟨hd0, hlb⟩ := listGet4_eq_some hg0
                obtain ⟨hd4, _⟩ := listGet4_eq_some hg4
                obtain ⟨hds, hdval, hdlen⟩ := sliceGet_eq_some hsl
                obtain ⟨hdc, _⟩ := listGet4_eq_some hgc
                obtain ⟨hcteq, ha0, ha1, ha2, ha3⟩ := chunkType_tryFrom_ok hct
                rw [List.drop_zero] at hd0
                norm_num [Chunk.lengthSize, Chunk.typeSize] at hd0 hd4 hds hdval hdc
                -- reassemble the byte stream
                have hL : dataBytes.length = u32FromBeBytes l0 l1 l2 l3 := hdlen
                have hsplit : bytes.drop 8 = dataBytes ++
                    bytes.drop (8 + u32FromBeBytes l0 l1 l2 l3) := by
                  conv_lhs => rw [← List.take_append_drop
                    (u32FromBeBytes l0 l1 l2 l3) (bytes.drop 8)]
                  rw [← hdval, List.drop_drop]
                rw [hcteq] at hcrc
                refine ⟨l0, l1, l2, l3, c0, c1, c2, c3, ?_, ?_, ?_, ?_, ?_, ?_, ?_, ?_, ?_⟩
                · rw [hc]
                  show bytes = l0 :: l1 :: l2 :: l3 :: (ct.bytes ++ dataBytes ++
                    (c0 :: c1 :: c2 :: c3 :: bytes.drop (12 + dataBytes.length)))
                  rw [hcteq]
                  have h12 : 12 + dataBytes.length =
                      8 + u32FromBeBytes l0 l1 l2 l3 + 4 := by omega
                  rw [h12]
                  conv_lhs => rw [hd0, hd4, hsplit, hdc]
                  simp [ChunkType.bytes]
                · rw [hc]; exact hL.symm
                · rw [hc]
                · rw [hc]
                  show dataBytes.length ≤ Chunk.maxDataSize
                  omega
                · rw [hc, hcteq]; exact ha0
                · rw [hc, hcteq]; exact ha1
                · rw [hc, hcteq]; exact ha2
                · rw [hc, hcteq]; exact ha3
                · rw [hc, hcteq]
                  show u32FromBeBytes c0 c1 c2 c3 = _
                  exact hcrc

/-! ## Evaluating the parser on a well-shaped wire image -/

lemma listGet4_cons0 (a b c d : Nat) (rest : List Nat) :
    listGet4 (a :: b :: c :: d :: rest) 0 = some (a, b, c, d) := rfl

lemma listGet4_cons4 (x0 x1 x2 x3 a b c d : Nat) (rest : List Nat) :
    listGet4 (x0 :: x1 :: x2 :: x3 :: a :: b :: c :: d :: rest) 4 =
      some (a, b, c, d) := rfl

lemma sliceGet_pos8 (x0 x1 x2 x3 x4 x5 x6 x7 : Nat) (d r : List Nat) :
    sliceGet (x0 :: x1 :: x2 :: x3 :: x4 :: x5 :: x6 :: x7 :: (d ++ r)) (4 + 4)
      d.length = some d := by
  unfold sliceGet
  rw [if_pos (by simp [List.length_append]; omega)]
  congr 1
  show (d ++ r).take d.length = d
  exact List.take_left d r

lemma listGet4_posCrc (x0 x1 x2 x3 x4 x5 x6 x7 a b c e : Nat) (d r : List Nat) :
    listGet4 (x0 :: x1 :: x2 :: x3 :: x4 :: x5 :: x6 :: x7 ::
      (d ++ a :: b :: c :: e :: r)) (4 + 4 + d.length) = some (a, b, c, e) := by
  unfold listGet4
  have h8 : (x0 :: x1 :: x2 :: x3 :: x4 :: x5 :: x6 :: x7 ::
      (d ++ a :: b :: c :: e :: r)).drop 8 = d ++ a :: b :: c :: e :: r := rfl
  have hdrop : (x0 :: x1 :: x2 :: x3 :: x4 :: x5 :: x6 :: x7 ::
      (d ++ a :: b :: c :: e :: r)).drop (4 + 4 + d.length) =
      a :: b :: c :: e :: r := by
    rw [show (4 : Nat) + 4 + d.length = 8 + d.length by norm_num,
      ← List.drop_drop, h8, List.drop_left]
  rw [hdrop]

lemma maxDataSize_lt : Chunk.maxDataSize < 2 ^ 32 := by
  simp [Chunk.maxDataSize, Nat.shiftLeft_eq]

lemma tryFrom_wire (t0 t1 t2 t3 c0 c1 c2 c3 : Nat) (d rest : List Nat)
    (hmax : d.length ≤ Chunk.maxDataSize) :
    Chunk.tryFrom (u32ToBeBytes d.length ++ t0 :: t1 :: t2 :: t3 ::
        (d ++ c0 :: c1 :: c2 :: c3 :: rest)) =
      match ChunkType.tryFrom t0 t1 t2 t3 with
      | .error e => .error (.invalidChunkType e)
      | .ok ct =>
        if u32FromBeBytes c0 c1 c2 c3 ≠ Chunk.calculateCrc ct d then
          .error (.crcMismatch (Chunk.calculateCrc ct d)
            (u32FromBeBytes c0 c1 c2 c3))
        else .ok ⟨ct, d, u32FromBeBytes c0 c1 c2 c3⟩ := by
  have hdlt : d.length < 2 ^ 32 := by
    have := maxDataSize_lt
    omega
  obtain ⟨A0, A1, A2, A3, hA, hval⟩ :
      ∃ a0 a1 a2 a3, u32ToBeBytes d.length = [a0, a1, a2, a3] ∧
        u32FromBeBytes a0 a1 a2 a3 = d.length :=
    ⟨_, _, _, _, rfl, u32FromBeBytes_toBe d.length hdlt⟩
  rw [hA]
  simp only [List.cons_append, List.nil_append]
  unfold Chunk.tryFrom
  simp only [listGet4_cons0]
  rw [hval]
  rw [if_neg (show ¬d.length > Chunk.maxDataSize by omega)]
  simp only [show Chunk.lengthSize = 4 from rfl, show Chunk.typeSize = 4 from rfl]
  simp only [listGet4_cons4]
  cases hct : ChunkType.tryFrom t0 t1 t2 t3 with
  | error e => simp only [hct]
  | ok ct =>
    simp only [hct, sliceGet_pos8, listGet4_posCrc]

lemma maxDataSize_eq : Chunk.maxDataSize = 2 ^ 31 - 1 := by
  simp [Chunk.maxDataSize, Nat.shiftLeft_eq]

/-! ## C1: chunk round-trip -/

/-- C1: for a chunk type whose four bytes are ASCII alphabetic and a byte
payload of at most `2^31 - 1` bytes, parsing the serialization of a fresh
chunk succeeds and returns a chunk with the same type, the same data, and
the same CRC. -/
theorem chunk_roundtrip (t : ChunkType) (d : List Nat)
    (halpha : ∀ x ∈ t.bytes, isAsciiAlphabetic x = true)
    (hlen : d.length ≤ 2 ^ 31 - 1)
    (hbytes : ∀ x ∈ d, x < 256) :
    ∃ c, Chunk.tryFrom (Chunk.new t d).asBytes = .ok c ∧
      c.chunkType = t ∧ c.data = d ∧ c.crc = (Chunk.new t d).crc := by
  obtain ⟨t0, t1, t2, t3⟩ := t
  have ha0 : isAsciiAlphabetic t0 = true := halpha t0 (by simp [ChunkType.bytes])
  have ha1 : isAsciiAlphabetic t1 = true := halpha t1 (by simp [ChunkType.bytes])
  have ha2 : isAsciiAlphabetic t2 = true := halpha t2 (by simp [ChunkType.bytes])
  have ha3 : isAsciiAlphabetic t3 = true := halpha t3 (by simp [ChunkType.bytes])
  have hmax : d.length ≤ Chunk.maxDataSize := by rw [maxDataSize_eq]; omega
  have hcrclt : Chunk.calculateCrc ⟨t0, t1, t2, t3⟩ d < 2 ^ 32 := by
    apply crc32_lt
    intro x hx
    rcases List.mem_append.mp hx with hx | hx
    · rcases (by simpa [ChunkType.bytes] using hx :
        x = t0 ∨ x = t1 ∨ x = t2 ∨ x = t3) with rfl | rfl | rfl | rfl
      · exact isAsciiAlphabetic_lt ha0
      · exact isAsciiAlphabetic_lt ha1
      · exact isAsciiAlphabetic_lt ha2
      · exact isAsciiAlphabetic_lt ha3
    · exact hbytes x hx
  obtain ⟨C0, C1, C2, C3, hC, hCval⟩ :
      ∃ a b c e, u32ToBeBytes (Chunk.calculateCrc ⟨t0, t1, t2, t3⟩ d) =
        [a, b, c, e] ∧
        u32FromBeBytes a b c e = Chunk.calculateCrc ⟨t0, t1, t2, t3⟩ d :=
    ⟨_, _, _, _, rfl, u32FromBeBytes_toBe _ hcrclt⟩
  have hshape : (Chunk.new ⟨t0, t1, t2, t3⟩ d).asBytes =
      u32ToBeBytes d.length ++ t0 :: t1 :: t2 :: t3 ::
        (d ++ C0 :: C1 :: C2 :: C3 :: ([] : List Nat)) := by
    rw [(chunk_asBytes_layout (Chunk.new ⟨t0, t1, t2, t3⟩ d)).1]
    show u32ToBeBytes d.length ++ ChunkType.bytes ⟨t0, t1, t2, t3⟩ ++ d ++
        u32ToBeBytes (Chunk.calculateCrc ⟨t0, t1, t2, t3⟩ d) = _
    rw [hC]
    simp [ChunkType.bytes, List.append_assoc]
  rw [hshape, tryFrom_wire t0 t1 t2 t3 C0 C1 C2 C3 d [] hmax,
    chunkType_tryFrom_of_alpha ha0 ha1 ha2 ha3]
  simp only [hCval]
  rw [if_neg (by simp)]
  exact ⟨⟨⟨t0, t1, t2, t3⟩, d, Chunk.calculateCrc ⟨t0, t1, t2, t3⟩ d⟩,
    rfl, rfl, rfl, rfl⟩

/-- C1 witness: a concrete round-trip through `RuSt` with payload `[1,2,3]`. -/
theorem chunk_roundtrip_witness :
    ∃ c, Chunk.tryFrom (Chunk.new rustChunkType [1, 2, 3]).asBytes = .ok c ∧
      c.chunkType = rustChunkType ∧ c.data = [1, 2, 3] ∧
      c.crc = (Chunk.new rustChunkType [1, 2, 3]).crc :=
  chunk_roundtrip rustChunkType [1, 2, 3] (by decide) (by norm_num) (by decide)

/-! ## C3: data-size invariant -/

/-- C3 (amended): every chunk produced by `Chunk::try_from` satisfies
`data.len() <= 2^31 - 1`; `Chunk::new` performs no size check, so for it
the bound holds only when the supplied data already satisfies it. -/
theorem tryFrom_data_length_bound (bytes : List Nat) (c : Chunk)
    (h : Chunk.tryFrom bytes = .ok c) : c.data.length ≤ 2 ^ 31 - 1 := by
  obtain ⟨_, _, _, _, _, _, _, _, _, _, _, hmax, _⟩ := tryFrom_ok_inv h
  rw [maxDataSize_eq] at hmax
  exact hmax

/-- C3 counterexample: `Chunk::new` accepts data of length `2^31`, violating
the claimed invariant for that constructor. -/
theorem new_unchecked_size :
    (Chunk.new ⟨65, 65, 65, 65⟩ (List.replicate (2 ^ 31) 0)).data.length >
      2 ^ 31 - 1 := by
  show (List.replicate (2 ^ 31) 0).length > 2 ^ 31 - 1
  rw [List.length_replicate]
  norm_num

/-- C3 witness: a concrete successful parse whose data satisfies the bound. -/
theorem tryFrom_data_length_bound_witness :
    (⟨⟨65, 65, 65, 65⟩, [], 2601322737⟩ : Chunk).data.length ≤ 2 ^ 31 - 1 :=
  tryFrom_data_length_bound (Chunk.new ⟨65, 65, 65, 65⟩ []).asBytes
    ⟨⟨65, 65, 65, 65⟩, [], 2601322737⟩ rfl

/-! ## C10: totality and underflow-freedom of the parser -/

/-- C10: `Chunk::try_from` is total by construction (every field access is
through the checked `get`/slice model), and whenever it reports
`NotEnoughBytes{position, required, actual}` the reported position never
exceeds the input length and `actual` is the exact (non-underflowing)
difference `bytes.len() - position`. -/
theorem tryFrom_notEnoughBytes_no_underflow (bytes : List Nat)
    (p req act : Nat)
    (h : Chunk.tryFrom bytes = .error (.notEnoughBytes p req act)) :
    p ≤ bytes.length ∧ act + p = bytes.length := by
  have e1 : Chunk.lengthSize = 4 := rfl
  have e2 : Chunk.typeSize = 4 := rfl
  unfold Chunk.tryFrom at h
  cases hg0 : listGet4 bytes 0 with
  | none =>
    simp only [hg0] at h
    obtain ⟨hp, hreq, hact⟩ :
        0 = p ∧ Chunk.lengthSize = req ∧ bytes.length - 0 = act := by
      simpa using h
    omega
  | some q0 =>
    obtain ⟨l0, l1, l2, l3⟩ := q0
    simp only [hg0] at h
    have hb4 : 0 + 4 ≤ bytes.length := (listGet4_eq_some hg0).2
    by_cases hmax : u32FromBeBytes l0 l1 l2 l3 > Chunk.maxDataSize
    · rw [if_pos hmax] at h
      simp at h
    · rw [if_neg hmax] at h
      cases hg4 : listGet4 bytes Chunk.lengthSize with
      | none =>
        simp only [hg4] at h
        obtain ⟨hp, hreq, hact⟩ :
            Chunk.lengthSize = p ∧ Chunk.typeSize = req ∧
              bytes.length - Chunk.lengthSize = act := by
          simpa using h
        omega
      | some q4 =>
        obtain ⟨t0, t1, t2, t3⟩ := q4
        simp only [hg4] at h
        have hb8 : Chunk.lengthSize + 4 ≤ bytes.length := (listGet4_eq_some hg4).2
        cases hct : ChunkType.tryFrom t0 t1 t2 t3 with
        | error e => simp [hct] at h
        | ok ct =>
          simp only [hct] at h
          cases hsl : sliceGet bytes (Chunk.lengthSize + Chunk.typeSize)
              (u32FromBeBytes l0 l1 l2 l3) with
          | none =>
            simp only [hsl] at h
            obtain ⟨hp, hreq, hact⟩ :
                Chunk.lengthSize + Chunk.typeSize = p ∧
                  u32FromBeBytes l0 l1 l2 l3 = req ∧
                  bytes.length - (Chunk.lengthSize + Chunk.typeSize) = act := by
              simpa using h
            omega
          | some dataBytes =>
            simp only [hsl] at h
            have hbd : Chunk.lengthSize + Chunk.typeSize +
                u32FromBeBytes l0 l1 l2 l3 ≤ bytes.length :=
              (sliceGet_eq_some hsl).1
            cases hgc : listGet4 bytes (Chunk.lengthSize + Chunk.typeSize +
                u32FromBeBytes l0 l1 l2 l3) with
            | none =>
              simp only [hgc] at h
              obtain ⟨hp, hreq, hact⟩ :
                  Chunk.lengthSize + Chunk.typeSize +
                      u32FromBeBytes l0 l1 l2 l3 = p ∧
                    Chunk.crcSize = req ∧
                    bytes.length - (Chunk.lengthSize + Chunk.typeSize +
                      u32FromBeBytes l0 l1 l2 l3) = act := by
                simpa using h
              omega
            | some qc =>
              obtain ⟨c0, c1, c2, c3⟩ := qc
              simp only [hgc] at h
              by_cases hcrc : u32FromBeBytes c0 c1 c2 c3 ≠
                  Chunk.calculateCrc ct dataBytes
              · rw [if_pos hcrc] at h
                simp at h
              · rw [if_neg hcrc] at h
                simp at h

/-- C10 witness: the empty input fails at position 0 with `actual = 0`,
consistently with the input length. -/
theorem tryFrom_notEnoughBytes_no_underflow_witness :
    0 ≤ ([] : List Nat).length ∧ 0 + 0 = ([] : List Nat).length :=
  tryFrom_notEnoughBytes_no_underflow [] 0 4 0 rfl

/-! ## C5: truncation handling and empty chunks -/

/-- C5 (amended): when the input starts with a big-endian length `L` within
the PNG limit, followed by four ASCII-alphabetic type bytes, and `L`
exceeds the remaining byte count, `Chunk::try_from` fails with
`NotEnoughBytes{position 8, required = L, actual = remaining}` (never
truncating); and a declared length of 0 with alphabetic type and a
matching CRC parses into a chunk with empty payload.  (When the type bytes
are not alphabetic or `L` exceeds `2^31 - 1`, the parse fails earlier with
`InvalidChunkType` or `TooLarge` instead — see the counterexample.) -/
theorem truncation_and_empty :
    (∀ (L t0 t1 t2 t3 : Nat) (rest : List Nat),
      L ≤ Chunk.maxDataSize →
      isAsciiAlphabetic t0 = true → isAsciiAlphabetic t1 = true →
      isAsciiAlphabetic t2 = true → isAsciiAlphabetic t3 = true →
      rest.length < L →
      Chunk.tryFrom (u32ToBeBytes L ++ t0 :: t1 :: t2 :: t3 :: rest) =
        .error (.notEnoughBytes 8 L rest.length)) ∧
    (∀ (t0 t1 t2 t3 : Nat) (rest : List Nat),
      isAsciiAlphabetic t0 = true → isAsciiAlphabetic t1 = true →
      isAsciiAlphabetic t2 = true → isAsciiAlphabetic t3 = true →
      Chunk.tryFrom (u32ToBeBytes 0 ++ t0 :: t1 :: t2 :: t3 ::
          (u32ToBeBytes (Chunk.calculateCrc ⟨t0, t1, t2, t3⟩ []) ++ rest)) =
        .ok ⟨⟨t0, t1, t2, t3⟩, [], Chunk.calculateCrc ⟨t0, t1, t2, t3⟩ []⟩) := by
  constructor
  · intro L t0 t1 t2 t3 rest hL ha0 ha1 ha2 ha3 hshort
    have hLlt : L < 2 ^ 32 := by
      have := maxDataSize_lt
      omega
    obtain ⟨A0, A1, A2, A3, hA, hval⟩ :
        ∃ a0 a1 a2 a3, u32ToBeBytes L = [a0, a1, a2, a3] ∧
          u32FromBeBytes a0 a1 a2 a3 = L :=
      ⟨_, _, _, _, rfl, u32FromBeBytes_toBe L hLlt⟩
    rw [hA]
    simp only [List.cons_append, List.nil_append]
    unfold Chunk.tryFrom
    simp only [listGet4_cons0]
    rw [hval]
    rw [if_neg (show ¬L > Chunk.maxDataSize by omega)]
    simp only [show Chunk.lengthSize = 4 from rfl, show Chunk.typeSize = 4 from rfl]
    simp only [listGet4_cons4]
    rw [chunkType_tryFrom_of_alpha ha0 ha1 ha2 ha3]
    have hnone : sliceGet (A0 :: A1 :: A2 :: A3 :: t0 :: t1 :: t2 :: t3 :: rest)
        (4 + 4) L = none := by
      unfold sliceGet
      rw [if_neg]
      simp only [List.length_cons]
      omega
    simp only [hnone]
    have hlen9 : (A0 :: A1 :: A2 :: A3 :: t0 :: t1 :: t2 :: t3 :: rest).length -
        (4 + 4) = rest.length := by
      simp only [List.length_cons]
      omega
    rw [hlen9]
  · intro t0 t1 t2 t3 rest ha0 ha1 ha2 ha3
    have hcrclt : Chunk.calculateCrc ⟨t0, t1, t2, t3⟩ [] < 2 ^ 32 := by
      apply crc32_lt
      intro x hx
      rcases (by simpa [ChunkType.bytes] using hx :
          x = t0 ∨ x = t1 ∨ x = t2 ∨ x = t3) with rfl | rfl | rfl | rfl
      · exact isAsciiAlphabetic_lt ha0
      · exact isAsciiAlphabetic_lt ha1
      · exact isAsciiAlphabetic_lt ha2
      · exact isAsciiAlphabetic_lt ha3
    obtain ⟨C0, C1, C2, C3, hC, hCval⟩ :
        ∃ a b c e, u32ToBeBytes (Chunk.calculateCrc ⟨t0, t1, t2, t3⟩ []) =
          [a, b, c, e] ∧
          u32FromBeBytes a b c e = Chunk.calculateCrc ⟨t0, t1, t2, t3⟩ [] :=
      ⟨_, _, _, _, rfl, u32FromBeBytes_toBe _ hcrclt⟩
    have hshape : u32ToBeBytes 0 ++ t0 :: t1 :: t2 :: t3 ::
        (u32ToBeBytes (Chunk.calculateCrc ⟨t0, t1, t2, t3⟩ []) ++ rest) =
        u32ToBeBytes ([] : List Nat).length ++ t0 :: t1 :: t2 :: t3 ::
          (([] : List Nat) ++ C0 :: C1 :: C2 :: C3 :: rest) := by
      rw [hC]
      simp
    rw [hshape, tryFrom_wire t0 t1 t2 t3 C0 C1 C2 C3 [] rest
      (by simp [maxDataSize_eq]), chunkType_tryFrom_of_alpha ha0 ha1 ha2 ha3]
    simp only [hCval]
    rw [if_neg (by simp)]

/-- C5 counterexample: an input whose declared length (1) exceeds the zero
remaining bytes but whose type bytes are not alphabetic fails with
`InvalidChunkType`, not with the `NotEnoughBytes` error the claim
requires. -/
theorem truncation_counterexample :
    Chunk.tryFrom [0, 0, 0, 1, 49, 49, 49, 49] =
      .error (.invalidChunkType (.invalidByte 49 0)) ∧
    Chunk.tryFrom [0, 0, 0, 1, 49, 49, 49, 49] ≠
      .error (.notEnoughBytes 8 1 0) := by
  constructor
  · rfl
  · intro h
    rw [show Chunk.tryFrom [0, 0, 0, 1, 49, 49, 49, 49] =
      .error (.invalidChunkType (.invalidByte 49 0)) from rfl] at h
    exact absurd h (by simp)

/-- C5 witness: concrete truncation failure (declared 5, remaining 0) and
a concrete empty-payload success for type `AAAA`. -/
theorem truncation_and_empty_witness :
    Chunk.tryFrom (u32ToBeBytes 5 ++ 65 :: 65 :: 65 :: 65 :: ([] : List Nat)) =
      .error (.notEnoughBytes 8 5 ([] : List Nat).length) ∧
    Chunk.tryFrom (u32ToBeBytes 0 ++ 65 :: 65 :: 65 :: 65 ::
        (u32ToBeBytes (Chunk.calculateCrc ⟨65, 65, 65, 65⟩ []) ++ [])) =
      .ok ⟨⟨65, 65, 65, 65⟩, [], Chunk.calculateCrc ⟨65, 65, 65, 65⟩ []⟩ :=
  ⟨truncation_and_empty.1 5 65 65 65 65 []
      (by rw [maxDataSize_eq]; norm_num) rfl rfl rfl rfl (by norm_num),
   truncation_and_empty.2 65 65 65 65 [] rfl rfl rfl rfl⟩

/-! ## C2: single-bit-flip CRC sensitivity -/

lemma tryFrom_wire_mismatch (l0 l1 l2 l3 c0 c1 c2 c3 t0 t1 t2 t3 : Nat)
    (d R : List Nat) (storedCrc : Nat)
    (hl : u32ToBeBytes d.length = [l0, l1, l2, l3])
    (hC : u32FromBeBytes c0 c1 c2 c3 = storedCrc)
    (hmax : d.length ≤ Chunk.maxDataSize)
    (ha0 : isAsciiAlphabetic t0 = true) (ha1 : isAsciiAlphabetic t1 = true)
    (ha2 : isAsciiAlphabetic t2 = true) (ha3 : isAsciiAlphabetic t3 = true)
    (hne : crc32 (t0 :: t1 :: t2 :: t3 :: d) ≠ storedCrc) :
    Chunk.tryFrom (l0 :: l1 :: l2 :: l3 :: ((t0 :: t1 :: t2 :: t3 :: d) ++
        (c0 :: c1 :: c2 :: c3 :: R))) =
      .error (.crcMismatch (crc32 (t0 :: t1 :: t2 :: t3 :: d)) storedCrc) := by
  have hshape : l0 :: l1 :: l2 :: l3 :: ((t0 :: t1 :: t2 :: t3 :: d) ++
      (c0 :: c1 :: c2 :: c3 :: R)) =
      u32ToBeBytes d.length ++ t0 :: t1 :: t2 :: t3 ::
        (d ++ c0 :: c1 :: c2 :: c3 :: R) := by
    rw [hl]
    simp
  rw [hshape, tryFrom_wire t0 t1 t2 t3 c0 c1 c2 c3 d R hmax,
    chunkType_tryFrom_of_alpha ha0 ha1 ha2 ha3]
  simp only [hC]
  have hcalc : Chunk.calculateCrc ⟨t0, t1, t2, t3⟩ d =
      crc32 (t0 :: t1 :: t2 :: t3 :: d) := rfl
  rw [hcalc, if_pos (Ne.symm hne)]

lemma tryFrom_wire_invalidType (l0 l1 l2 l3 c0 c1 c2 c3 t0 t1 t2 t3 : Nat)
    (d R : List Nat) (e : ChunkTypeError)
    (hl : u32ToBeBytes d.length = [l0, l1, l2, l3])
    (hmax : d.length ≤ Chunk.maxDataSize)
    (hct : ChunkType.tryFrom t0 t1 t2 t3 = .error e) :
    Chunk.tryFrom (l0 :: l1 :: l2 :: l3 :: ((t0 :: t1 :: t2 :: t3 :: d) ++
        (c0 :: c1 :: c2 :: c3 :: R))) =
      .error (.invalidChunkType e) := by
  have hshape : l0 :: l1 :: l2 :: l3 :: ((t0 :: t1 :: t2 :: t3 :: d) ++
      (c0 :: c1 :: c2 :: c3 :: R)) =
      u32ToBeBytes d.length ++ t0 :: t1 :: t2 :: t3 ::
        (d ++ c0 :: c1 :: c2 :: c3 :: R) := by
    rw [hl]
    simp
  rw [hshape, tryFrom_wire t0 t1 t2 t3 c0 c1 c2 c3 d R hmax, hct]

set_option maxHeartbeats 1000000 in
/-- C2 (amended): for any byte sequence that parses as a valid chunk,
flipping a single bit of a byte in the data region (holding the length and
CRC fields fixed) makes `Chunk::try_from` fail with a `CrcMismatch` whose
`actual` field is the stored CRC; flipping a bit in the type region does
the same when the flipped byte remains ASCII alphabetic, and fails with
`InvalidChunkType (InvalidByte ...)` (not `CrcMismatch`, as the original
claim stated) when it does not. -/
theorem crc_bitflip_sensitivity (bytes : List Nat) (c : Chunk) (i j : Nat)
    (hb : ∀ x ∈ bytes, x < 256)
    (hok : Chunk.tryFrom bytes = .ok c)
    (hj : j < 8) (hi4 : 4 ≤ i) (hi8L : i < 8 + c.data.length) :
    (8 ≤ i ∨ isAsciiAlphabetic (bytes.getD i 0 ^^^ 2 ^ j) = true →
      ∃ e, Chunk.tryFrom (bytes.set i (bytes.getD i 0 ^^^ 2 ^ j)) =
        .error (.crcMismatch e c.crc) ∧ e ≠ c.crc) ∧
    (i < 8 → isAsciiAlphabetic (bytes.getD i 0 ^^^ 2 ^ j) = false →
      Chunk.tryFrom (bytes.set i (bytes.getD i 0 ^^^ 2 ^ j)) =
        .error (.invalidChunkType
          (.invalidByte (bytes.getD i 0 ^^^ 2 ^ j) (i - 4)))) := by
  obtain ⟨l0, l1, l2, l3, c0, c1, c2, c3, hBeq, hLval, hCval, hmax,
    ha0, ha1, ha2, ha3, hcrc⟩ := tryFrom_ok_inv hok
  obtain ⟨k, rfl⟩ : ∃ k, i = 4 + k := ⟨i - 4, by omega⟩
  have hkM : k < (ChunkType.bytes c.chunkType ++ c.data).length := by
    simp only [List.length_append, ChunkType.bytes, List.length_cons,
      List.length_nil]
    omega
  have hgd : bytes.getD (4 + k) 0 =
      (ChunkType.bytes c.chunkType ++ c.data).getD k 0 := by
    conv_lhs => rw [hBeq, show 4 + k = k + 1 + 1 + 1 + 1 by omega]
    simp only [List.getD_cons_succ]
    exact List.getD_append _ _ 0 k hkM
  have hset : bytes.set (4 + k)
      ((ChunkType.bytes c.chunkType ++ c.data).getD k 0 ^^^ 2 ^ j) =
      l0 :: l1 :: l2 :: l3 ::
        ((ChunkType.bytes c.chunkType ++ c.data).set k
            ((ChunkType.bytes c.chunkType ++ c.data).getD k 0 ^^^ 2 ^ j) ++
          (c0 :: c1 :: c2 :: c3 :: bytes.drop (12 + c.data.length))) := by
    conv_lhs => rw [hBeq, show 4 + k = k + 1 + 1 + 1 + 1 by omega]
    simp only [List.set_cons_succ]
    rw [List.set_append_left _ _ hkM]
  have hM256 : ∀ x ∈ ChunkType.bytes c.chunkType ++ c.data, x < 256 := by
    intro x hx
    apply hb
    rw [hBeq]
    exact List.mem_cons_of_mem _ (List.mem_cons_of_mem _ (List.mem_cons_of_mem _
      (List.mem_cons_of_mem _ (List.mem_append_left _ hx))))
  have hMne : crc32 ((ChunkType.bytes c.chunkType ++ c.data).set k
      ((ChunkType.bytes c.chunkType ++ c.data).getD k 0 ^^^ 2 ^ j)) ≠
      crc32 (ChunkType.bytes c.chunkType ++ c.data) :=
    crc32_set_ne _ k j hM256 hkM hj
  have hcM : crc32 (ChunkType.bytes c.chunkType ++ c.data) = c.crc := hcrc.symm
  have hl0 : l0 < 256 := hb l0 (by rw [hBeq]; simp)
  have hl1 : l1 < 256 := hb l1 (by rw [hBeq]; simp)
  have hl2 : l2 < 256 := hb l2 (by rw [hBeq]; simp)
  have hl3 : l3 < 256 := hb l3 (by rw [hBeq]; simp)
  have hLbytes : u32ToBeBytes c.data.length = [l0, l1, l2, l3] := by
    rw [← hLval]
    exact u32ToBeBytes_of_fromBe l0 l1 l2 l3 hl0 hl1 hl2 hl3
  rw [hgd]
  constructor
  · intro hcase
    by_cases hk4 : 4 ≤ k
    · -- flip inside the data region
      have hTlen : (ChunkType.bytes c.chunkType).length = 4 := by
        simp [ChunkType.bytes]
      have hMset : (ChunkType.bytes c.chunkType ++ c.data).set k
          ((ChunkType.bytes c.chunkType ++ c.data).getD k 0 ^^^ 2 ^ j) =
          ChunkType.bytes c.chunkType ++ c.data.set (k - 4)
            ((ChunkType.bytes c.chunkType ++ c.data).getD k 0 ^^^ 2 ^ j) := by
        rw [List.set_append_right _ _ (by rw [hTlen]; omega), hTlen]
      rw [hset, hMset]
      have hTcons : ChunkType.bytes c.chunkType ++ c.data.set (k - 4)
          ((ChunkType.bytes c.chunkType ++ c.data).getD k 0 ^^^ 2 ^ j) =
          c.chunkType.b0 :: c.chunkType.b1 :: c.chunkType.b2 :: c.chunkType.b3 ::
            c.data.set (k - 4)
              ((ChunkType.bytes c.chunkType ++ c.data).getD k 0 ^^^ 2 ^ j) := rfl
      rw [hTcons]
      have hne2 : crc32 (c.chunkType.b0 :: c.chunkType.b1 :: c.chunkType.b2 ::
          c.chunkType.b3 :: c.data.set (k - 4)
            ((ChunkType.bytes c.chunkType ++ c.data).getD k 0 ^^^ 2 ^ j)) ≠
          c.crc := by
        rw [← hcM]
        have hback : (c.chunkType.b0 :: c.chunkType.b1 :: c.chunkType.b2 ::
            c.chunkType.b3 :: c.data.set (k - 4)
              ((ChunkType.bytes c.chunkType ++ c.data).getD k 0 ^^^ 2 ^ j) :
            List Nat) =
            (ChunkType.bytes c.chunkType ++ c.data).set k
              ((ChunkType.bytes c.chunkType ++ c.data).getD k 0 ^^^ 2 ^ j) :=
          hMset.symm
        rw [hback]
        exact hMne
      refine ⟨_, tryFrom_wire_mismatch l0 l1 l2 l3 c0 c1 c2 c3 _ _ _ _ _ _ _
        (by rw [List.length_set]; exact hLbytes) hCval
        (by rw [List.length_set]; exact hmax) ha0 ha1 ha2 ha3 hne2, hne2⟩
    · -- flip inside the type region, flipped byte still alphabetic
      have hva : isAsciiAlphabetic
          ((ChunkType.bytes c.chunkType ++ c.data).getD k 0 ^^^ 2 ^ j) = true := by
        rcases hcase with h8 | hva
        · omega
        · exact hva
      have hk4' : k < 4 := by omega
      interval_cases k
      · have hm0 : (ChunkType.bytes c.chunkType ++ c.data).getD 0 0 =
            c.chunkType.b0 := rfl
        have hms : (ChunkType.bytes c.chunkType ++ c.data).set 0
            (c.chunkType.b0 ^^^ 2 ^ j) =
            (c.chunkType.b0 ^^^ 2 ^ j) :: c.chunkType.b1 :: c.chunkType.b2 ::
              c.chunkType.b3 :: c.data := rfl
        rw [hm0] at hva
        rw [hset, hm0, hms]
        have hne2 : crc32 ((c.chunkType.b0 ^^^ 2 ^ j) :: c.chunkType.b1 ::
            c.chunkType.b2 :: c.chunkType.b3 :: c.data) ≠ c.crc := by
          rw [← hcM, show ((c.chunkType.b0 ^^^ 2 ^ j) :: c.chunkType.b1 ::
            c.chunkType.b2 :: c.chunkType.b3 :: c.data : List Nat) =
            (ChunkType.bytes c.chunkType ++ c.data).set 0
              ((ChunkType.bytes c.chunkType ++ c.data).getD 0 0 ^^^ 2 ^ j)
            from hms.symm]
          exact hMne
        exact ⟨_, tryFrom_wire_mismatch l0 l1 l2 l3 c0 c1 c2 c3 _ _ _ _ _ _ _
          hLbytes hCval hmax hva ha1 ha2 ha3 hne2, hne2⟩
      · have hm1 : (ChunkType.bytes c.chunkType ++ c.data).getD 1 0 =
            c.chunkType.b1 := rfl
        have hms : (ChunkType.bytes c.chunkType ++ c.data).set 1
            (c.chunkType.b1 ^^^ 2 ^ j) =
            c.chunkType.b0 :: (c.chunkType.b1 ^^^ 2 ^ j) :: c.chunkType.b2 ::
              c.chunkType.b3 :: c.data := rfl
        rw [hm1] at hva
        rw [hset, hm1, hms]
        have hne2 : crc32 (c.chunkType.b0 :: (c.chunkType.b1 ^^^ 2 ^ j) ::
            c.chunkType.b2 :: c.chunkType.b3 :: c.data) ≠ c.crc := by
          rw [← hcM, show (c.chunkType.b0 :: (c.chunkType.b1 ^^^ 2 ^ j) ::
            c.chunkType.b2 :: c.chunkType.b3 :: c.data : List Nat) =
            (ChunkType.bytes c.chunkType ++ c.data).set 1
              ((ChunkType.bytes c.chunkType ++ c.data).getD 1 0 ^^^ 2 ^ j)
            from hms.symm]
          exact hMne
        exact ⟨_, tryFrom_wire_mismatch l0 l1 l2 l3 c0 c1 c2 c3 _ _ _ _ _ _ _
          hLbytes hCval hmax ha0 hva ha2 ha3 hne2, hne2⟩
      · have hm2 : (ChunkType.bytes c.chunkType ++ c.data).getD 2 0 =
            c.chunkType.b2 := rfl
        have hms : (ChunkType.bytes c.chunkType ++ c.data).set 2
            (c.chunkType.b2 ^^^ 2 ^ j) =
            c.chunkType.b0 :: c.chunkType.b1 :: (c.chunkType.b2 ^^^ 2 ^ j) ::
              c.chunkType.b3 :: c.data := rfl
        rw [hm2] at hva
        rw [hset, hm2, hms]
        have hne2 : crc32 (c.chunkType.b0 :: c.chunkType.b1 ::
            (c.chunkType.b2 ^^^ 2 ^ j) :: c.chunkType.b3 :: c.data) ≠ c.crc := by
          rw [← hcM, show (c.chunkType.b0 :: c.chunkType.b1 ::
            (c.chunkType.b2 ^^^ 2 ^ j) :: c.chunkType.b3 :: c.data : List Nat) =
            (ChunkType.bytes c.chunkType ++ c.data).set 2
              ((ChunkType.bytes c.chunkType ++ c.data).getD 2 0 ^^^ 2 ^ j)
            from hms.symm]
          exact hMne
        exact ⟨_, tryFrom_wire_mismatch l0 l1 l2 l3 c0 c1 c2 c3 _ _ _ _ _ _ _
          hLbytes hCval hmax ha0 ha1 hva ha3 hne2, hne2⟩
      · have hm3 : (ChunkType.bytes c.chunkType ++ c.data).getD 3 0 =
            c.chunkType.b3 := rfl
        have hms : (ChunkType.bytes c.chunkType ++ c.data).set 3
            (c.chunkType.b3 ^^^ 2 ^ j) =
            c.chunkType.b0 :: c.chunkType.b1 :: c.chunkType.b2 ::
              (c.chunkType.b3 ^^^ 2 ^ j) :: c.data := rfl
        rw [hm3] at hva
        rw [hset, hm3, hms]
        have hne2 : crc32 (c.chunkType.b0 :: c.chunkType.b1 ::
            c.chunkType.b2 :: (c.chunkType.b3 ^^^ 2 ^ j) :: c.data) ≠ c.crc := by
          rw [← hcM, show (c.chunkType.b0 :: c.chunkType.b1 ::
            c.chunkType.b2 :: (c.chunkType.b3 ^^^ 2 ^ j) :: c.data : List Nat) =
            (ChunkType.bytes c.chunkType ++ c.data).set 3
              ((ChunkType.bytes c.chunkType ++ c.data).getD 3 0 ^^^ 2 ^ j)
            from hms.symm]
          exact hMne
        exact ⟨_, tryFrom_wire_mismatch l0 l1 l2 l3 c0 c1 c2 c3 _ _ _ _ _ _ _
          hLbytes hCval hmax ha0 ha1 ha2 hva hne2, hne2⟩
  · -- flip inside the type region, flipped byte no longer alphabetic
    intro hik hva
    have hk4' : k < 4 := by omega
    interval_cases k
    · have hm0 : (ChunkType.bytes c.chunkType ++ c.data).getD 0 0 =
          c.chunkType.b0 := rfl
      have hms : (ChunkType.bytes c.chunkType ++ c.data).set 0
          (c.chunkType.b0 ^^^ 2 ^ j) =
          (c.chunkType.b0 ^^^ 2 ^ j) :: c.chunkType.b1 :: c.chunkType.b2 ::
            c.chunkType.b3 :: c.data := rfl
      rw [hm0] at hva
      rw [hset, hm0, hms, show (4 : Nat) + 0 - 4 = 0 from rfl]
      exact tryFrom_wire_invalidType l0 l1 l2 l3 c0 c1 c2 c3 _ _ _ _ _ _ _
        hLbytes hmax (by simp [ChunkType.tryFrom, hva])
    · have hm1 : (ChunkType.bytes c.chunkType ++ c.data).getD 1 0 =
          c.chunkType.b1 := rfl
      have hms : (ChunkType.bytes c.chunkType ++ c.data).set 1
          (c.chunkType.b1 ^^^ 2 ^ j) =
          c.chunkType.b0 :: (c.chunkType.b1 ^^^ 2 ^ j) :: c.chunkType.b2 ::
            c.chunkType.b3 :: c.data := rfl
      rw [hm1] at hva
      rw [hset, hm1, hms, show (4 : Nat) + 1 - 4 = 1 from rfl]
      exact tryFrom_wire_invalidType l0 l1 l2 l3 c0 c1 c2 c3 _ _ _ _ _ _ _
        hLbytes hmax (by simp [ChunkType.tryFrom, ha0, hva])
    · have hm2 : (ChunkType.bytes c.chunkType ++ c.data).getD 2 0 =
          c.chunkType.b2 := rfl
      have hms : (ChunkType.bytes c.chunkType ++ c.data).set 2
          (c.chunkType.b2 ^^^ 2 ^ j) =
          c.chunkType.b0 :: c.chunkType.b1 :: (c.chunkType.b2 ^^^ 2 ^ j) ::
            c.chunkType.b3 :: c.data := rfl
      rw [hm2] at hva
      rw [hset, hm2, hms, show (4 : Nat) + 2 - 4 = 2 from rfl]
      exact tryFrom_wire_invalidType l0 l1 l2 l3 c0 c1 c2 c3 _ _ _ _ _ _ _
        hLbytes hmax (by simp [ChunkType.tryFrom, ha0, ha1, hva])
    · have hm3 : (ChunkType.bytes c.chunkType ++ c.data).getD 3 0 =
          c.chunkType.b3 := rfl
      have hms : (ChunkType.bytes c.chunkType ++ c.data).set 3
          (c.chunkType.b3 ^^^ 2 ^ j) =
          c.chunkType.b0 :: c.chunkType.b1 :: c.chunkType.b2 ::
            (c.chunkType.b3 ^^^ 2 ^ j) :: c.data := rfl
      rw [hm3] at hva
      rw [hset, hm3, hms, show (4 : Nat) + 3 - 4 = 3 from rfl]
      exact tryFrom_wire_invalidType l0 l1 l2 l3 c0 c1 c2 c3 _ _ _ _ _ _ _
        hLbytes hmax (by simp [ChunkType.tryFrom, ha0, ha1, ha2, hva])

set_option maxRecDepth 40000 in
/-- C2 counterexample: the serialized chunk of type `AAAA` with empty data
is valid, but flipping bit 6 of the first type byte (index 4) turns `A`
(0x41) into the non-alphabetic byte 0x01, so the parse fails with
`InvalidChunkType`, not with the `CrcMismatch` the claim requires. -/
theorem crc_bitflip_counterexample :
    Chunk.tryFrom (Chunk.new ⟨65, 65, 65, 65⟩ []).asBytes =
      .ok (Chunk.new ⟨65, 65, 65, 65⟩ []) ∧
    Chunk.tryFrom ((Chunk.new ⟨65, 65, 65, 65⟩ []).asBytes.set 4
        ((Chunk.new ⟨65, 65, 65, 65⟩ []).asBytes.getD 4 0 ^^^ 2 ^ 6)) =
      .error (.invalidChunkType (.invalidByte 1 0)) ∧
    ∀ e a, Chunk.tryFrom ((Chunk.new ⟨65, 65, 65, 65⟩ []).asBytes.set 4
        ((Chunk.new ⟨65, 65, 65, 65⟩ []).asBytes.getD 4 0 ^^^ 2 ^ 6)) ≠
      .error (.crcMismatch e a) := by
  refine ⟨rfl, rfl, ?_⟩
  intro e a h
  rw [show Chunk.tryFrom ((Chunk.new ⟨65, 65, 65, 65⟩ []).asBytes.set 4
      ((Chunk.new ⟨65, 65, 65, 65⟩ []).asBytes.getD 4 0 ^^^ 2 ^ 6)) =
    .error (.invalidChunkType (.invalidByte 1 0)) from rfl] at h
  exact absurd h (by simp)

set_option maxRecDepth 40000 in
/-- C2 witness: flipping bit 0 of the single data byte of a concrete valid
chunk produces a CRC mismatch against the stored CRC. -/
theorem crc_bitflip_sensitivity_witness :
    ∃ e, Chunk.tryFrom ((Chunk.new ⟨65, 65, 65, 65⟩ [7]).asBytes.set 8
        ((Chunk.new ⟨65, 65, 65, 65⟩ [7]).asBytes.getD 8 0 ^^^ 2 ^ 0)) =
      .error (.crcMismatch e (Chunk.new ⟨65, 65, 65, 65⟩ [7]).crc) ∧
      e ≠ (Chunk.new ⟨65, 65, 65, 65⟩ [7]).crc :=
  (crc_bitflip_sensitivity (Chunk.new ⟨65, 65, 65, 65⟩ [7]).asBytes
    (Chunk.new ⟨65, 65, 65, 65⟩ [7]) 8 0 (by decide) rfl (by norm_num)
    (by norm_num) (by decide)).1 (Or.inl (by norm_num))

/-! ## C9: container append / find / remove -/

/-! ## C9: container append / find / remove -/

lemma find?_eraseP_of_countP_one (pred : Chunk → Bool) :
    ∀ l : List Chunk, l.countP pred = 1 → (l.eraseP pred).find? pred = none := by
  intro l
  induction l with
  | nil => intro h; simp at h
  | cons a t ih =>
    intro h
    rw [List.countP_cons] at h
    by_cases hpa : pred a = true
    · rw [List.eraseP_cons_of_pos hpa]
      rw [if_pos hpa] at h
      have ht : t.countP pred = 0 := by omega
      rw [List.find?_eq_none]
      intro x hx
      simpa using List.countP_eq_zero.mp ht x hx
    · rw [List.eraseP_cons_of_neg hpa, List.find?_cons_of_neg _ hpa]
      rw [if_neg hpa] at h
      exact ih (by omega)

/-- C9 (spec-modelled): appending a chunk and then finding by its type
string returns the first stored-order match (the appended chunk itself when
no earlier chunk matches); removing the sole chunk of a type makes a
subsequent find return nothing; and removing an absent type fails with the
not-found error rather than silently succeeding. -/
theorem png_append_find_remove :
    (∀ (p : Png) (c : Chunk),
      Png.chunkByType (Png.appendChunk p c) c.chunkType.bytes =
        some ((Png.chunkByType p c.chunkType.bytes).getD c)) ∧
    (∀ (p : Png) (s : List Nat) (p' : Png),
      p.chunks.countP (chunkTypeMatches s) = 1 →
      Png.removeFirstChunk p s = .ok p' →
      Png.chunkByType p' s = none) ∧
    (∀ (p : Png) (s : List Nat),
      Png.chunkByType p s = none →
      Png.removeFirstChunk p s = .error .chunkNotFound) := by
  refine ⟨?_, ?_, ?_⟩
  · intro p c
    unfold Png.chunkByType Png.appendChunk
    rw [List.find?_append]
    have hc : chunkTypeMatches c.chunkType.bytes c = true := by
      simp [chunkTypeMatches]
    have hone : List.find? (chunkTypeMatches c.chunkType.bytes) [c] = some c :=
      List.find?_cons_of_pos _ hc
    rw [hone]
    cases p.chunks.find? (chunkTypeMatches c.chunkType.bytes) <;> rfl
  · intro p s p' hcount hrem
    unfold Png.removeFirstChunk at hrem
    cases hf : p.chunks.find? (chunkTypeMatches s) with
    | none => rw [hf] at hrem; exact absurd hrem (by simp)
    | some c0 =>
      rw [hf] at hrem
      have hp' : p' = ⟨p.chunks.eraseP (chunkTypeMatches s)⟩ :=
        (Except.ok.inj hrem).symm
      rw [hp']
      unfold Png.chunkByType
      exact find?_eraseP_of_countP_one _ _ hcount
  · intro p s h
    unfold Png.removeFirstChunk
    rw [show p.chunks.find? (chunkTypeMatches s) = none from h]

/-- C9 witness: concrete append/find, sole-removal, and absent-removal on
small containers with the `RuSt` chunk type. -/
theorem png_append_find_remove_witness :
    Png.chunkByType (Png.appendChunk ⟨[]⟩ (Chunk.new rustChunkType []))
        (Chunk.new rustChunkType []).chunkType.bytes =
      some ((Png.chunkByType ⟨[]⟩
        (Chunk.new rustChunkType []).chunkType.bytes).getD
          (Chunk.new rustChunkType [])) ∧
    Png.chunkByType (⟨[]⟩ : Png) rustChunkType.bytes = none ∧
    Png.removeFirstChunk (⟨[]⟩ : Png) rustChunkType.bytes =
      .error .chunkNotFound :=
  ⟨png_append_find_remove.1 ⟨[]⟩ (Chunk.new rustChunkType []),
   rfl,
   png_append_find_remove.2.2 ⟨[]⟩ rustChunkType.bytes rfl⟩
